import Mathlib

/-!
Formal model of the RFC property-extraction pipeline (`streamlit_app.py`).

Text is modelled as `List Char` (Python strings are sequences of code
points).  Python's `str.upper()` is modelled by per-character ASCII
uppercasing (`Char.toUpper`), which is faithful for ASCII text; the
keyword vocabulary itself is pure ASCII.  Python's `str.count` counts
non-overlapping occurrences scanning left to right, which is embedded
directly below.
-/

namespace RFCApp

/-- Python whitespace (`str.strip()` with no argument, and the regex
class matched on the ASCII range). -/
def pyIsSpace (c : Char) : Bool :=
  c = ' ' || c = '\t' || c = '\n' || c = '\r' || c = '\x0b' || c = '\x0c'

/-- Python `line.strip()`: remove leading and trailing whitespace. -/
def pyStrip (l : List Char) : List Char :=
  ((l.dropWhile pyIsSpace).reverse.dropWhile pyIsSpace).reverse

/-- Python `s.rstrip('.')`: remove trailing dots. -/
def rstripDots (l : List Char) : List Char :=
  (l.reverse.dropWhile (fun c => c = '.')).reverse

/-- Python `text.split('\n')`: split on every newline; the empty string splits
to a single empty chunk, mirroring Python. -/
def splitNl : List Char → List (List Char)
  | [] => [[]]
  | c :: rest =>
    if c = '\n' then [] :: splitNl rest
    else
      match splitNl rest with
      | [] => [[c]]
      | chunk :: chunks => (c :: chunk) :: chunks

/-- Fueled worker for `countSub`.  Matches Python `str.count`: scan left
to right; on a match at the current position, skip past the matched
occurrence (non-overlapping), otherwise advance one character. -/
def countSubF (p : List Char) : Nat → List Char → Nat
  | 0, _ => 0
  | _, [] => 0
  | fuel + 1, c :: rest =>
    if p.isPrefixOf (c :: rest) then
      countSubF p fuel (rest.drop (p.length - 1)) + 1
    else
      countSubF p fuel rest

/-- Python `haystack.count(needle)` for a nonempty needle: the number of
non-overlapping occurrences, scanning left to right. -/
def countSub (p s : List Char) : Nat := countSubF p s.length s

/-- Specification-side count: the number of positions at which `p`
occurs as a contiguous substring of `s` (each start index counted
once, overlapping occurrences included). -/
def occCount (p : List Char) : List Char → Nat
  | [] => if p.isPrefixOf ([] : List Char) then 1 else 0
  | c :: rest => (if p.isPrefixOf (c :: rest) then 1 else 0) + occCount p rest

/-- Property of a pattern `p`: it has no nonempty proper border: no proper suffix of `p` is also a
prefix of `p`.  For such patterns occurrences cannot overlap, so the
non-overlapping count of Python's `str.count` equals the number of
occurrence positions. -/
def borderFree (p : List Char) : Prop :=
  ∀ k, k < p.length → 0 < k → (p.drop k).isPrefixOf p = false

instance (p : List Char) : Decidable (borderFree p) := by
  unfold borderFree; infer_instance

/-- The `SmartRFCParser.RFC_KEYWORDS` vocabulary. -/
def RFC_KEYWORDS : List (List Char) :=
  ["MUST".data, "MUST NOT".data, "REQUIRED".data, "SHALL".data,
   "SHALL NOT".data, "SHOULD".data, "SHOULD NOT".data, "RECOMMENDED".data,
   "MAY".data, "OPTIONAL".data]

/-- Model of `SmartRFCParser._count_keywords`: uppercase the text, then sum the
`str.count` of each keyword over the uppercased text. -/
def _count_keywords (text : List Char) : Nat :=
  (RFC_KEYWORDS.map (fun kw => countSub kw (text.map Char.toUpper))).sum

/-- Fueled worker consuming `(?:\.\d+)*`: greedily consume groups of a
dot followed by at least one digit; a dot not followed by a digit stays
unconsumed.  The fuel is the input length, which always suffices. -/
def dotDigitGroupsF : Nat → List Char → List Char × List Char
  | 0, l => ([], l)
  | fuel + 1, l =>
    match l with
    | '.' :: rest =>
      let d := rest.takeWhile Char.isDigit
      if d = [] then ([], l)
      else
        let p := dotDigitGroupsF fuel (rest.dropWhile Char.isDigit)
        ('.' :: (d ++ p.1), p.2)
    | _ => ([], l)

/-- Model of `re.match(r'^(\d+(?:\.\d+)*\.?)\s+(.+?)$', line)` on a
whitespace-stripped line, returning `(group(1), group(2))`.

The regex is deterministic on stripped input: the greedy `\d+` and
`(?:\.\d+)*` never benefit from backtracking (a shorter match leaves a
digit or a dot where `\.?\s` must match), the optional `\.?` consumes a
present dot exactly when the match can then continue with whitespace,
and `(.+?)$` ends up holding everything after the maximal whitespace
run, which is nonempty and ends in a non-space because the line was
stripped. -/
def parseHeader (line : List Char) : Option (List Char × List Char) :=
  let d := line.takeWhile Char.isDigit
  if d = [] then none
  else
    let g := dotDigitGroupsF (line.dropWhile Char.isDigit).length
               (line.dropWhile Char.isDigit)
    let numRest : List Char × List Char :=
      match g.2 with
      | '.' :: rest => (d ++ g.1 ++ ['.'], rest)
      | other => (d ++ g.1, other)
    if numRest.2.takeWhile pyIsSpace = [] then none
    else
      let title := numRest.2.dropWhile pyIsSpace
      if title = [] then none
      else some (numRest.1, title)

/-- A line counts as a section header when its stripped form matches the
section pattern (`re.match(section_pattern, line.strip())`). -/
def isHeader (line : List Char) : Bool :=
  (parseHeader (pyStrip line)).isSome

/-- One entry of the `sections` list built by
`_extract_property_sections` (dict keys `section`, `title`, `content`,
`keywords`; `section` is a Lean keyword, hence `sectionNum`). -/
structure RFCSection where
  sectionNum : List Char
  title : List Char
  content : List Char
  keywords : Nat
deriving DecidableEq

/-- The loop state of `_extract_property_sections`:  the accumulated
`sections` list, `current_section` (`None` before the first header),
`current_title` and `current_content`. -/
structure LoopState where
  sections : List RFCSection
  current_section : Option (List Char)
  current_title : List Char
  current_content : List (List Char)
deriving DecidableEq

/-- The save step duplicated in the loop body and after the loop:
`if current_section and current_content:` (Python truthiness: a non-`None`
nonempty string and a nonempty list), join the content lines with
newlines, count keywords, and append the section when the count is at
least 3. -/
def saveCurrent (st : LoopState) : List RFCSection :=
  match st.current_section with
  | none => st.sections
  | some sec =>
    if sec ≠ [] ∧ st.current_content ≠ [] then
      let content := List.intercalate ['\n'] st.current_content
      let kc := _count_keywords content
      if 3 ≤ kc then
        st.sections ++ [⟨sec, st.current_title, content, kc⟩]
      else st.sections
    else st.sections

/-- One iteration of the `for line in lines` loop of
`_extract_property_sections`. -/
def stepLine (st : LoopState) (line : List Char) : LoopState :=
  match parseHeader (pyStrip line) with
  | some g =>
    { sections := saveCurrent st
      current_section := some (rstripDots g.1)
      current_title := pyStrip g.2
      current_content := [] }
  | none =>
    match st.current_section with
    | some sec =>
      if sec ≠ [] then
        { st with current_content := st.current_content ++ [line] }
      else st
    | none => st

/-- The initial loop state: `sections = []`, `current_section = None`,
`current_title = ""`, `current_content = []`. -/
def initState : LoopState := ⟨[], none, [], []⟩

/-- Stable insertion used to model `list.sort(key=..., reverse=True)`:
insert `x` before the first element whose keyword count is at most
`x`'s, so earlier-encountered sections precede later ones of equal
count. -/
def insertDesc (x : RFCSection) : List RFCSection → List RFCSection
  | [] => [x]
  | y :: ys =>
    if y.keywords ≤ x.keywords then x :: y :: ys
    else y :: insertDesc x ys

/-- Model of `sections.sort(key=lambda x: x['keywords'], reverse=True)`: Python's
sort is stable, and `reverse=True` yields the stable descending order;
the stable sort with respect to a total preorder is unique, and this
insertion sort realises it. -/
def sortDesc : List RFCSection → List RFCSection
  | [] => []
  | x :: xs => insertDesc x (sortDesc xs)

/-- The body of `_extract_property_sections` after the text was split
into lines. -/
def extractFromLines (lines : List (List Char)) : List RFCSection :=
  sortDesc (saveCurrent (lines.foldl stepLine initState))

/-- The `sections` list of `_extract_property_sections` in encounter
order, before the final sort. -/
def extractRawSections (text : List Char) : List RFCSection :=
  saveCurrent ((splitNl text).foldl stepLine initState)

/-- Model of `SmartRFCParser._extract_property_sections`. -/
def _extract_property_sections (text : List Char) : List RFCSection :=
  sortDesc (extractRawSections text)

/-- Model of `SmartRFCParser._extract_title`: first line whose stripped form is
longer than 15 characters and does not start with `"RFC"`, truncated to
100 characters; `"Unknown Title"` when no line qualifies. -/
def _extract_title : List (List Char) → List Char
  | [] => "Unknown Title".data
  | line :: rest =>
    let stripped := pyStrip line
    if 15 < stripped.length ∧ ¬ ("RFC".data.isPrefixOf stripped) then
      stripped.take 100
    else _extract_title rest

/-- Attempted match of `RFC\s*(\d+)` (case-insensitive) anchored at the
head of `l`: the literal `RFC`, any run of whitespace, then a nonempty
maximal digit run, which is the returned group. -/
def matchRFCAt (l : List Char) : Option (List Char) :=
  match l with
  | r :: f :: c :: rest =>
    if r.toUpper = 'R' ∧ f.toUpper = 'F' ∧ c.toUpper = 'C' then
      let digits := (rest.dropWhile pyIsSpace).takeWhile Char.isDigit
      if digits = [] then none else some digits
    else none
  | _ => none

/-- Model of `re.search(r'RFC\s*(\d+)', text, re.IGNORECASE)`: try each start
position from the left and return the group of the first match. -/
def searchRFC : List Char → Option (List Char)
  | [] => none
  | c :: rest =>
    match matchRFCAt (c :: rest) with
    | some d => some d
    | none => searchRFC rest

/-- The result dictionary of `SmartRFCParser.parse`. -/
structure ParseResult where
  rfc_number : List Char
  title : List Char
  total_chars : Nat
  property_sections : List RFCSection
deriving DecidableEq

/-- Model of `SmartRFCParser.parse`. -/
def parse (text : List Char) : ParseResult :=
  { rfc_number := (searchRFC text).getD "Unknown".data
    title := _extract_title ((splitNl text).take 20)
    total_chars := text.length
    property_sections := _extract_property_sections text }

/-- One row of `properties.csv` (fields added in
`extract_properties_batch`; `section` is a Lean keyword, hence
`section_`).  The `id` and `timestamp` are generated before saving, so
rows carry them as plain data. -/
structure PropertyRow where
  id : List Char
  rfc : List Char
  section_ : List Char
  text : List Char
  type : List Char
  timestamp : List Char
deriving DecidableEq

/-- One row of `propositions.csv` (fields added in
`extract_propositions_batch`). -/
structure PropositionRow where
  id : List Char
  property_id : List Char
  name : List Char
  type : List Char
  description : List Char
  timestamp : List Char
  approved : Bool
deriving DecidableEq

/-- One row of `ltl_formulas.csv` (fields added in `generate_ltl_batch`). -/
structure LtlRow where
  id : List Char
  property_id : List Char
  ltl_formula : List Char
  explanation : List Char
  operators_used : List Char
  timestamp : List Char
  approved : Bool
deriving DecidableEq

/-- Model of `df.drop_duplicates(subset=['id'], keep='last')`: a row is kept
exactly when no later row has the same key; kept rows stay in their
original relative order. -/
def dedupKeepLastBy {α : Type} (key : α → List Char) : List α → List α
  | [] => []
  | r :: rest =>
    if rest.any (fun r2 => key r2 == key r) then dedupKeepLastBy key rest
    else r :: dedupKeepLastBy key rest

/-- Model of `DataManager.save_properties`: the persisted file is modelled as
`Option (List PropertyRow)` (`none` = the CSV file does not exist).
When the file exists the new batch is concatenated after the existing
rows and deduplicated by id keeping the last occurrence; otherwise the
batch is written as-is.  The returned list is the table written back. -/
def save_properties (store : Option (List PropertyRow))
    (props : List PropertyRow) : List PropertyRow :=
  match store with
  | some existing => dedupKeepLastBy (fun r => r.id) (existing ++ props)
  | none => props

/-- Model of `DataManager.save_propositions` (same merge logic, propositions
file). -/
def save_propositions (store : Option (List PropositionRow))
    (props : List PropositionRow) : List PropositionRow :=
  match store with
  | some existing => dedupKeepLastBy (fun r => r.id) (existing ++ props)
  | none => props

/-- Model of `DataManager.save_ltl_formulas` (same merge logic, LTL file). -/
def save_ltl_formulas (store : Option (List LtlRow))
    (formulas : List LtlRow) : List LtlRow :=
  match store with
  | some existing => dedupKeepLastBy (fun r => r.id) (existing ++ formulas)
  | none => formulas

/-- Outcome of the `client.messages.create` call together with reading
`response.content[0].text`: either some exception was raised inside the
`try` block (`failure`), or a response text was obtained. -/
inductive ApiResponse where
  | failure : ApiResponse
  | success : List Char → ApiResponse

/-- Model of `re.search(r'\[.*\]', text, re.DOTALL)`: the leftmost-longest match
runs from the first `'['` of the text to the last `']'`, provided some
`']'` occurs after the first `'['`; otherwise there is no match. -/
def extractJsonArray (text : List Char) : Option (List Char) :=
  match text.dropWhile (fun c => !(c = '[')) with
  | [] => none
  | b :: tail =>
    match tail.reverse.dropWhile (fun c => !(c = ']')) with
    | [] => none
    | revBody => some (b :: revBody.reverse)

/-- Model of `PropertyProcessor.extract_properties_batch`, shallowly embedded:
the external model call is abstracted by `resp`, `json.loads` by the
oracle `parseJson` (`none` = the parse raised, caught by the handler),
and the per-item dictionary access plus id/timestamp generation by
`mkProperty`.  Every exception path returns `[]`. -/
def extract_properties_batch {γ : Type}
    (parseJson : List Char → Option (List γ))
    (mkProperty : γ → PropertyRow) (resp : ApiResponse) :
    List PropertyRow :=
  match resp with
  | .failure => []
  | .success text =>
    match extractJsonArray text with
    | none => []
    | some s =>
      match parseJson s with
      | some data => data.map mkProperty
      | none => []

/-- Model of `PropertyProcessor.extract_propositions_batch`, embedded the same
way. -/
def extract_propositions_batch {γ : Type}
    (parseJson : List Char → Option (List γ))
    (mkProposition : γ → PropositionRow) (resp : ApiResponse) :
    List PropositionRow :=
  match resp with
  | .failure => []
  | .success text =>
    match extractJsonArray text with
    | none => []
    | some s =>
      match parseJson s with
      | some data => data.map mkProposition
      | none => []

/-- Model of `PropertyProcessor.generate_ltl_batch`, embedded the same way. -/
def generate_ltl_batch {γ : Type}
    (parseJson : List Char → Option (List γ))
    (mkFormula : γ → LtlRow) (resp : ApiResponse) : List LtlRow :=
  match resp with
  | .failure => []
  | .success text =>
    match extractJsonArray text with
    | none => []
    | some s =>
      match parseJson s with
      | some data => data.map mkFormula
      | none => []

/-! ### Counting lemmas: Python `str.count` vs. occurrence positions -/

theorem occCount_nil (p : List Char) (hp : p ≠ []) : occCount p [] = 0 := by
  unfold occCount
  cases p with
  | nil => exact absurd rfl hp
  | cons a l => simp [List.isPrefixOf]

theorem occCount_cons (p : List Char) (c : Char) (rest : List Char) :
    occCount p (c :: rest) =
      (if p.isPrefixOf (c :: rest) then 1 else 0) + occCount p rest := rfl

theorem not_prefix_of_dropSuffix_append (p : List Char) (hbf : borderFree p)
    (k : Nat) (hk0 : 0 < k) (hklen : k < p.length) (t : List Char) :
    ¬ (p <+: (p.drop k ++ t)) := by
  intro hpre
  have hq : (p.drop k) <+: (p.drop k ++ t) := List.prefix_append _ _
  rcases List.prefix_or_prefix_of_prefix hpre hq with h | h
  · have hlen := h.length_le
    simp only [List.length_drop] at hlen
    omega
  · have := List.isPrefixOf_iff_prefix.mpr h
    rw [hbf k hklen hk0] at this
    exact Bool.false_ne_true this

theorem occCount_dropSuffix_append (p : List Char) (hbf : borderFree p) :
    ∀ (q : List Char) (k : Nat), q = p.drop k → 0 < k →
      ∀ t, occCount p (q ++ t) = occCount p t := by
  intro q
  induction q with
  | nil => intro k _ _ t; simp
  | cons c q' ih =>
    intro k hq hk0 t
    have hklen : k < p.length := by
      by_contra hle
      have : p.drop k = [] := List.drop_eq_nil_of_le (by omega)
      rw [← hq] at this
      exact List.cons_ne_nil _ _ this
    have hnot : ¬ (p.isPrefixOf (c :: (q' ++ t)) = true) := by
      intro habs
      have h2 := List.isPrefixOf_iff_prefix.mp habs
      have h3 : p <+: (p.drop k ++ t) := by
        rw [← hq]; exact h2
      exact not_prefix_of_dropSuffix_append p hbf k hk0 hklen t h3
    have hstep : occCount p ((c :: q') ++ t) = occCount p (q' ++ t) := by
      rw [List.cons_append, occCount_cons, if_neg hnot, Nat.zero_add]
    rw [hstep]
    have hq' : q' = p.drop (k + 1) := by
      have := congrArg List.tail hq
      simpa [List.tail_drop] using this
    exact ih (k + 1) hq' (by omega) t

theorem occCount_self_append (p : List Char) (hbf : borderFree p)
    (hp : p ≠ []) (t : List Char) :
    occCount p (p ++ t) = occCount p t + 1 := by
  cases p with
  | nil => exact absurd rfl hp
  | cons c p' =>
    have hpre : (c :: p').isPrefixOf ((c :: p') ++ t) = true :=
      List.isPrefixOf_iff_prefix.mpr (List.prefix_append _ _)
    rw [List.cons_append, occCount_cons, ← List.cons_append, if_pos hpre]
    by_cases hp' : p' = []
    · subst hp'
      have : ([] : List Char) ++ t = t := List.nil_append t
      rw [this]
      omega
    · have : occCount (c :: p') (p' ++ t) = occCount (c :: p') t :=
        occCount_dropSuffix_append (c :: p') hbf p' 1 rfl (by omega) t
      rw [this, Nat.add_comm]

theorem countSubF_eq_occCount (p : List Char) (hbf : borderFree p)
    (hp : p ≠ []) :
    ∀ (fuel : Nat) (s : List Char), s.length ≤ fuel →
      countSubF p fuel s = occCount p s := by
  intro fuel
  induction fuel with
  | zero =>
    intro s hs
    have : s = [] := List.length_eq_zero.mp (Nat.le_zero.mp hs)
    subst this
    rw [occCount_nil p hp]
    rfl
  | succ fuel ih =>
    intro s hs
    cases s with
    | nil => rw [occCount_nil p hp]; rfl
    | cons c rest =>
      by_cases hpre : p.isPrefixOf (c :: rest) = true
      · obtain ⟨m, hm⟩ := Nat.exists_eq_succ_of_ne_zero
          (fun h => hp (List.length_eq_zero.mp h))
        have hsplit : (c :: rest) = p ++ rest.drop m := by
          have h1 : p = (c :: rest).take p.length :=
            List.prefix_iff_eq_take.mp (List.isPrefixOf_iff_prefix.mp hpre)
          have h2 : (c :: rest).drop p.length = rest.drop m := by
            rw [hm]; rfl
          conv_lhs => rw [← List.take_append_drop p.length (c :: rest)]
          rw [← h1, h2]
        have hlen : (rest.drop m).length ≤ fuel := by
          have := List.length_drop m rest
          simp only [List.length_cons] at hs
          omega
        have hunfold : countSubF p (fuel + 1) (c :: rest) =
            countSubF p fuel (rest.drop (p.length - 1)) + 1 := by
          rw [countSubF, if_pos hpre]
        rw [hunfold]
        have hd : p.length - 1 = m := by omega
        rw [hd, ih (rest.drop m) hlen]
        conv_rhs => rw [hsplit]
        rw [occCount_self_append p hbf hp]
      · have hunfold : countSubF p (fuel + 1) (c :: rest) =
            countSubF p fuel rest := by
          rw [countSubF, if_neg hpre]
        have hlen : rest.length ≤ fuel := by
          simp only [List.length_cons] at hs; omega
        rw [hunfold, ih rest hlen, occCount_cons, if_neg hpre]
        omega

theorem countSub_eq_occCount (p : List Char) (hbf : borderFree p)
    (hp : p ≠ []) (s : List Char) : countSub p s = occCount p s :=
  countSubF_eq_occCount p hbf hp s.length s (Nat.le_refl _)

theorem occCount_mono_of_prefix (q p : List Char) (hqp : q <+: p) :
    ∀ s, occCount p s ≤ occCount q s := by
  intro s
  induction s with
  | nil =>
    by_cases hp : p.isPrefixOf ([] : List Char) = true
    · have hq : q.isPrefixOf ([] : List Char) = true :=
        List.isPrefixOf_iff_prefix.mpr
          (hqp.trans (List.isPrefixOf_iff_prefix.mp hp))
      unfold occCount; rw [if_pos hp, if_pos hq]
    · unfold occCount; rw [if_neg hp]; omega
  | cons c rest ih =>
    rw [occCount_cons, occCount_cons]
    have hif : (if p.isPrefixOf (c :: rest) then 1 else 0) ≤
        (if q.isPrefixOf (c :: rest) then (1 : Nat) else 0) := by
      by_cases hp : p.isPrefixOf (c :: rest) = true
      · have hq : q.isPrefixOf (c :: rest) = true :=
          List.isPrefixOf_iff_prefix.mpr
            (hqp.trans (List.isPrefixOf_iff_prefix.mp hp))
        rw [if_pos hp, if_pos hq]
      · rw [if_neg hp]; omega
    omega

/-! ### Stable descending sort lemmas -/

theorem mem_insertDesc (x a : RFCSection) (l : List RFCSection) :
    a ∈ insertDesc x l ↔ a = x ∨ a ∈ l := by
  induction l with
  | nil => simp [insertDesc]
  | cons y ys ih =>
    by_cases h : y.keywords ≤ x.keywords
    · simp [insertDesc, h]
    · simp [insertDesc, h, ih]
      tauto

theorem mem_sortDesc (a : RFCSection) (l : List RFCSection) :
    a ∈ sortDesc l ↔ a ∈ l := by
  induction l with
  | nil => simp [sortDesc]
  | cons x xs ih =>
    simp [sortDesc, mem_insertDesc, ih]

theorem pairwise_insertDesc (x : RFCSection) (l : List RFCSection)
    (h : l.Pairwise (fun a b => b.keywords ≤ a.keywords)) :
    (insertDesc x l).Pairwise (fun a b => b.keywords ≤ a.keywords) := by
  induction l with
  | nil => simp [insertDesc]
  | cons y ys ih =>
    rw [List.pairwise_cons] at h
    obtain ⟨h1, h2⟩ := h
    by_cases hxy : y.keywords ≤ x.keywords
    · rw [insertDesc, if_pos hxy, List.pairwise_cons]
      refine ⟨?_, ?_⟩
      · intro z hz
        rcases List.mem_cons.mp hz with hz | hz
        · subst hz; exact hxy
        · exact Nat.le_trans (h1 z hz) hxy
      · rw [List.pairwise_cons]; exact ⟨h1, h2⟩
    · rw [insertDesc, if_neg hxy, List.pairwise_cons]
      refine ⟨?_, ih h2⟩
      intro z hz
      rcases (mem_insertDesc x z ys).mp hz with hz | hz
      · subst hz; omega
      · exact h1 z hz

theorem pairwise_sortDesc (l : List RFCSection) :
    (sortDesc l).Pairwise (fun a b => b.keywords ≤ a.keywords) := by
  induction l with
  | nil => simp [sortDesc]
  | cons x xs ih => exact pairwise_insertDesc x (sortDesc xs) ih

theorem filter_insertDesc (k : Nat) (x : RFCSection) (l : List RFCSection) :
    (insertDesc x l).filter (fun s => s.keywords == k) =
      if x.keywords = k then
        x :: l.filter (fun s => s.keywords == k)
      else l.filter (fun s => s.keywords == k) := by
  induction l with
  | nil =>
    by_cases hk : x.keywords = k <;>
      simp [insertDesc, List.filter_cons, hk]
  | cons y ys ih =>
    by_cases hxy : y.keywords ≤ x.keywords
    · rw [insertDesc, if_pos hxy]
      by_cases hk : x.keywords = k <;>
        simp [List.filter_cons, hk]
    · rw [insertDesc, if_neg hxy, List.filter_cons, List.filter_cons, ih]
      by_cases hk : x.keywords = k
      · have hy : ¬ (y.keywords = k) := by omega
        simp [hk, hy]
      · simp [hk]

theorem filter_sortDesc (k : Nat) (l : List RFCSection) :
    (sortDesc l).filter (fun s => s.keywords == k) =
      l.filter (fun s => s.keywords == k) := by
  induction l with
  | nil => rfl
  | cons x xs ih =>
    rw [sortDesc, filter_insertDesc, List.filter_cons]
    by_cases hk : x.keywords = k
    · rw [if_pos hk, ih]
      simp [hk]
    · rw [if_neg hk, ih]
      simp [hk]

/-! ### Loop invariants of the section extractor -/

theorem keywords_ge_saveCurrent (st : LoopState)
    (h : ∀ s ∈ st.sections, 3 ≤ s.keywords) :
    ∀ s ∈ saveCurrent st, 3 ≤ s.keywords := by
  obtain ⟨secs, osec, t, content⟩ := st
  intro s hs
  rcases osec with _ | sec
  · exact h s hs
  · simp only [saveCurrent] at hs
    split at hs
    · split at hs
      · rcases List.mem_append.mp hs with hmem | hmem
        · exact h s hmem
        · rw [List.mem_singleton] at hmem
          subst hmem
          assumption
      · exact h s hs
    · exact h s hs

theorem stepLine_sections (st : LoopState) (line : List Char) :
    (stepLine st line).sections = st.sections ∨
      (stepLine st line).sections = saveCurrent st := by
  obtain ⟨secs, osec, t, content⟩ := st
  rw [stepLine]
  cases hp : parseHeader (pyStrip line) with
  | some g => right; rfl
  | none =>
    rcases osec with _ | sec
    · left; rfl
    · by_cases hsec : sec ≠ ([] : List Char)
      · left; simp [hsec]
      · left; simp [hsec]

theorem keywords_ge_foldl (lines : List (List Char)) :
    ∀ (st : LoopState), (∀ s ∈ st.sections, 3 ≤ s.keywords) →
      ∀ s ∈ (lines.foldl stepLine st).sections, 3 ≤ s.keywords := by
  induction lines with
  | nil => intro st h; exact h
  | cons line rest ih =>
    intro st h
    rw [List.foldl_cons]
    refine ih (stepLine st line) ?_
    rcases stepLine_sections st line with hsec | hsec
    · rw [hsec]; exact h
    · rw [hsec]; exact keywords_ge_saveCurrent st h

theorem saveCurrent_empty_content (secs : List RFCSection)
    (osec : Option (List Char)) (t : List Char) :
    saveCurrent ⟨secs, osec, t, []⟩ = secs := by
  rcases osec with _ | sec
  · rfl
  · simp [saveCurrent]

theorem foldl_nonheaders_init (pre : List (List Char))
    (h : ∀ l ∈ pre, isHeader l = false) :
    pre.foldl stepLine initState = initState := by
  induction pre with
  | nil => rfl
  | cons line rest ih =>
    have hline : parseHeader (pyStrip line) = none := by
      have := h line (List.mem_cons_self line rest)
      unfold isHeader at this
      exact Option.not_isSome_iff_eq_none.mp (by simp [this])
    rw [List.foldl_cons]
    have hstep : stepLine initState line = initState := by
      rw [stepLine, hline]
      rfl
    rw [hstep]
    exact ih (fun l hl => h l (List.mem_cons_of_mem line hl))

/-! ### Dedup-by-id lemmas for the tabular store -/

theorem any_key_eq_false {α : Type} (key : α → List Char) (l : List α)
    (x : α) (h : ¬ key x ∈ l.map key) :
    (l.any fun r2 => key r2 == key x) = false := by
  rw [List.any_eq_false]
  intro r hr habs
  rw [beq_iff_eq] at habs
  exact h (habs ▸ List.mem_map_of_mem key hr)

theorem dedupKeepLastBy_append_single {α : Type} (key : α → List Char)
    (l : List α) (r : α) (h : (l.map key).Nodup) :
    dedupKeepLastBy key (l ++ [r]) =
      l.filter (fun e => !(key e == key r)) ++ [r] := by
  induction l with
  | nil => simp [dedupKeepLastBy]
  | cons e l' ih =>
    rw [List.map_cons, List.nodup_cons] at h
    obtain ⟨hnot, hnd⟩ := h
    have hany : ((l' ++ [r]).any fun r2 => key r2 == key e) =
        (key r == key e) := by
      rw [List.any_append, any_key_eq_false key l' e hnot]
      simp
    rw [List.cons_append, dedupKeepLastBy, hany]
    by_cases hre : key r = key e
    · rw [if_pos (by rw [beq_iff_eq]; exact hre), ih hnd,
        List.filter_cons]
      simp [hre.symm]
    · rw [if_neg (by simp [hre]), ih hnd, List.filter_cons]
      have : (key e == key r) = false := by
        simp only [beq_eq_false_iff_ne, ne_eq]
        exact fun hc => hre hc.symm
      simp [this]

theorem mem_dedupKeepLastBy {α : Type} (key : α → List Char) (l : List α)
    (x : α) (h : x ∈ dedupKeepLastBy key l) : x ∈ l := by
  induction l with
  | nil => exact h
  | cons r rest ih =>
    rw [dedupKeepLastBy] at h
    split at h
    · exact List.mem_cons_of_mem r (ih h)
    · rcases List.mem_cons.mp h with h | h
      · exact h ▸ List.mem_cons_self r rest
      · exact List.mem_cons_of_mem r (ih h)

theorem nodup_dedupKeepLastBy {α : Type} (key : α → List Char)
    (l : List α) : ((dedupKeepLastBy key l).map key).Nodup := by
  induction l with
  | nil => simp [dedupKeepLastBy]
  | cons r rest ih =>
    rw [dedupKeepLastBy]
    split
    · exact ih
    · rw [List.map_cons, List.nodup_cons]
      refine ⟨?_, ih⟩
      intro habs
      rcases List.mem_map.mp habs with ⟨x, hx, hkey⟩
      have hxrest : x ∈ rest := mem_dedupKeepLastBy key rest x hx
      have : rest.any (fun r2 => key r2 == key r) = true :=
        List.any_eq_true.mpr ⟨x, hxrest, by rw [beq_iff_eq]; exact hkey⟩
      simp_all

theorem filter_ne_key_eq_self {α : Type} (key : α → List Char)
    (l : List α) (r : α) (h : ¬ key r ∈ l.map key) :
    l.filter (fun e => !(key e == key r)) = l := by
  rw [List.filter_eq_self]
  intro e he
  simp only [Bool.not_eq_true', beq_eq_false_iff_ne, ne_eq]
  intro habs
  exact h (habs ▸ List.mem_map_of_mem key he)

theorem stepLine_header (st : LoopState) (line : List Char)
    (g : List Char × List Char) (h : parseHeader (pyStrip line) = some g) :
    stepLine st line =
      ⟨saveCurrent st, some (rstripDots g.1), pyStrip g.2, []⟩ := by
  rw [stepLine, h]

/-! ### Characterization of the RFC-number search -/

theorem searchRFC_eq_none (text : List Char)
    (h : ∀ i, i ≤ text.length → matchRFCAt (text.drop i) = none) :
    searchRFC text = none := by
  induction text with
  | nil => rfl
  | cons c rest ih =>
    have h0 := h 0 (Nat.zero_le _)
    rw [List.drop_zero] at h0
    rw [searchRFC, h0]
    refine ih (fun i hi => ?_)
    have h2 := h (i + 1) (by simp only [List.length_cons]; omega)
    rwa [List.drop_succ_cons] at h2

theorem searchRFC_eq_some (text : List Char) :
    ∀ (i : Nat) (d : List Char), matchRFCAt (text.drop i) = some d →
      (∀ j, j < i → matchRFCAt (text.drop j) = none) →
      searchRFC text = some d := by
  induction text with
  | nil =>
    intro i d hmatch _
    rw [List.drop_nil] at hmatch
    rw [show matchRFCAt ([] : List Char) = none from rfl] at hmatch
    exact Option.noConfusion hmatch
  | cons c rest ih =>
    intro i d hmatch hnone
    cases i with
    | zero =>
      rw [List.drop_zero] at hmatch
      rw [searchRFC, hmatch]
    | succ i' =>
      have h0 := hnone 0 (Nat.succ_pos _)
      rw [List.drop_zero] at h0
      rw [searchRFC, h0]
      refine ih i' d (by rwa [List.drop_succ_cons] at hmatch)
        (fun j hj => ?_)
      have := hnone (j + 1) (Nat.succ_lt_succ hj)
      rwa [List.drop_succ_cons] at this

/-! ### Characterization of title extraction -/

/-- The line condition of `_extract_title` as a boolean predicate: the
stripped line is longer than 15 characters and does not start with
`"RFC"`. -/
def titleCond (l : List Char) : Bool :=
  decide (15 < (pyStrip l).length) && !("RFC".data.isPrefixOf (pyStrip l))

theorem titleCond_iff (x : List Char) :
    titleCond x = true ↔
      (15 < (pyStrip x).length ∧
        ¬ ("RFC".data.isPrefixOf (pyStrip x) = true)) := by
  unfold titleCond
  rw [Bool.and_eq_true, decide_eq_true_iff, Bool.not_eq_true',
    Bool.eq_false_iff]

theorem extract_title_spec (ls : List (List Char)) :
    (∀ l, ls.find? titleCond = some l →
        _extract_title ls = (pyStrip l).take 100) ∧
      (ls.find? titleCond = none →
        _extract_title ls = "Unknown Title".data) := by
  induction ls with
  | nil => exact ⟨fun l h => Option.noConfusion h, fun _ => rfl⟩
  | cons x ls ih =>
    by_cases hc : titleCond x = true
    · have hcond := (titleCond_iff x).mp hc
      constructor
      · intro l hfind
        rw [List.find?_cons_of_pos _ hc] at hfind
        injection hfind with hfind
        subst hfind
        simp only [_extract_title]
        rw [if_pos hcond]
      · intro hfind
        rw [List.find?_cons_of_pos _ hc] at hfind
        exact Option.noConfusion hfind
    · have hcond : ¬ (15 < (pyStrip x).length ∧
          ¬ ("RFC".data.isPrefixOf (pyStrip x) = true)) :=
        fun habs => hc ((titleCond_iff x).mpr habs)
      constructor
      · intro l hfind
        rw [List.find?_cons_of_neg _ (by simpa using hc)] at hfind
        simp only [_extract_title]
        rw [if_neg hcond]
        exact ih.1 l hfind
      · intro hfind
        rw [List.find?_cons_of_neg _ (by simpa using hc)] at hfind
        simp only [_extract_title]
        rw [if_neg hcond]
        exact ih.2 hfind

/-! ### Claim theorems -/

/-- C1 (counterexample): on the input
`"1. Intro\nMUST MUST SHOULD\n2. Rules\nMUST SHOULD MAY RECOMMENDED\n"`
the claim is false: section "1"'s content `"MUST MUST SHOULD"` counts 3
keywords (two `MUST` occurrences plus one `SHOULD`), not 1, so section
"1" is kept and the returned list is not `[section "2"]` alone. -/
theorem c1_claim_counterexample :
    _count_keywords ("MUST MUST SHOULD".data) = 3 ∧
      ¬ ((_extract_property_sections
            "1. Intro\nMUST MUST SHOULD\n2. Rules\nMUST SHOULD MAY RECOMMENDED\n".data).map
          (fun s => s.sectionNum) = ["2".data]) := by
  constructor
  · decide
  · decide

/-- C1 (amended): on the input
`"1. Intro\nMUST MUST SHOULD\n2. Rules\nMUST SHOULD MAY RECOMMENDED\n"`
the extractor computes keyword_count 3 for section "1" and keeps it
(3 ≥ 3), computes keyword_count 4 for section "2" and keeps it, and
returns them sorted descending: section "2" then section "1". -/
theorem c1_amended :
    (_extract_property_sections
        "1. Intro\nMUST MUST SHOULD\n2. Rules\nMUST SHOULD MAY RECOMMENDED\n".data).map
      (fun s => (s.sectionNum, s.keywords)) =
      [("2".data, 4), ("1".data, 3)] := by
  decide

/-- C2: for every input text, every returned section has
keyword_count ≥ 3, the returned list is sorted in non-increasing order
of keyword_count, and for every count value the subsequence of sections
with that count equals the corresponding subsequence of the pre-sort
list in document encounter order (the sort is stable). -/
theorem c2_sections_filtered_sorted_stable (text : List Char) :
    (∀ s ∈ _extract_property_sections text, 3 ≤ s.keywords) ∧
      (_extract_property_sections text).Pairwise
        (fun a b => b.keywords ≤ a.keywords) ∧
      (∀ k, (_extract_property_sections text).filter
          (fun s => s.keywords == k) =
        (extractRawSections text).filter (fun s => s.keywords == k)) := by
  refine ⟨?_, ?_, ?_⟩
  · intro s hs
    rw [_extract_property_sections] at hs
    have hmem := (mem_sortDesc s _).mp hs
    rw [extractRawSections] at hmem
    refine keywords_ge_saveCurrent _ ?_ s hmem
    exact keywords_ge_foldl (splitNl text) initState
      (fun s h => absurd h (List.not_mem_nil s))
  · exact pairwise_sortDesc _
  · intro k
    exact filter_sortDesc k _

/-- C3: for every content string, `_count_keywords` equals the sum over
the 10 keywords of the number of case-insensitive substring occurrence
positions of that keyword (occurrences counted independently per
keyword); in particular an occurrence of "MUST NOT" also yields a
"MUST" occurrence, so the string "MUST NOT" alone counts 2. -/
theorem c3_count_keywords_occurrence_sum :
    (∀ text, _count_keywords text =
        (RFC_KEYWORDS.map
          (fun kw => occCount kw (text.map Char.toUpper))).sum) ∧
      (∀ s, occCount "MUST NOT".data s ≤ occCount "MUST".data s) ∧
      _count_keywords "MUST NOT".data = 2 := by
  have h10 : ∀ kw ∈ RFC_KEYWORDS, borderFree kw ∧ kw ≠ [] := by decide
  refine ⟨?_, ?_, by decide⟩
  · intro text
    unfold _count_keywords
    congr 1
    refine List.map_congr_left ?_
    intro kw hkw
    exact countSub_eq_occCount kw (h10 kw hkw).1 (h10 kw hkw).2 _
  · intro s
    exact occCount_mono_of_prefix "MUST".data "MUST NOT".data
      (List.isPrefixOf_iff_prefix.mp (by decide)) s

/-- C4: when no line of the input matches the section-header pattern
after stripping, the extractor returns the empty list (not an error);
and any block of non-header lines before the rest of the document
contributes nothing: the extraction of `pre ++ rest` equals the
extraction of `rest` whenever `pre` contains no header line. -/
theorem c4_no_headers_empty :
    (∀ text, (∀ l ∈ splitNl text, isHeader l = false) →
        _extract_property_sections text = []) ∧
      (∀ pre rest, (∀ l ∈ pre, isHeader l = false) →
        extractFromLines (pre ++ rest) = extractFromLines rest) := by
  constructor
  · intro text h
    rw [_extract_property_sections, extractRawSections,
      foldl_nonheaders_init (splitNl text) h]
    rfl
  · intro pre rest h
    rw [extractFromLines, extractFromLines, List.foldl_append,
      foldl_nonheaders_init pre h]

/-- C5: `parse` returns as rfc_number the digit group of the leftmost
match of `RFC\s*(\d+)` (case-insensitive): if no position of the text
matches, the result is "Unknown"; if position `i` matches with digit
group `d` and no earlier position matches, the result is `d`. -/
theorem c5_rfc_number (text : List Char) :
    ((∀ i, i ≤ text.length → matchRFCAt (text.drop i) = none) →
        (parse text).rfc_number = "Unknown".data) ∧
      (∀ i d, matchRFCAt (text.drop i) = some d →
        (∀ j, j < i → matchRFCAt (text.drop j) = none) →
        (parse text).rfc_number = d) := by
  constructor
  · intro h
    show (searchRFC text).getD "Unknown".data = "Unknown".data
    rw [searchRFC_eq_none text h]
    rfl
  · intro i d hm hn
    show (searchRFC text).getD "Unknown".data = d
    rw [searchRFC_eq_some text i d hm hn]
    rfl

/-- C6: the extracted title is determined by the first line among the
first 20 lines whose stripped form is longer than 15 characters and
does not start with "RFC": its stripped form truncated to 100
characters is returned; when no such line exists the title is
"Unknown Title". -/
theorem c6_title_first_qualifying (text : List Char) :
    (∀ l, ((splitNl text).take 20).find? titleCond = some l →
        (parse text).title = (pyStrip l).take 100) ∧
      (((splitNl text).take 20).find? titleCond = none →
        (parse text).title = "Unknown Title".data) := by
  constructor
  · intro l h
    show _extract_title ((splitNl text).take 20) = (pyStrip l).take 100
    exact (extract_title_spec _).1 l h
  · intro h
    show _extract_title ((splitNl text).take 20) = "Unknown Title".data
    exact (extract_title_spec _).2 h

/-- C10: keyword counting only sees accumulated content lines, never a
header line or its title: a header immediately followed by another
header, and a header that is the last line of the input, contribute no
entry to the returned list — extraction is unchanged if such a header
is removed, no matter how many keywords its title contains. -/
theorem c10_header_without_content_dropped :
    (∀ lines hl, isHeader hl = true →
        extractFromLines (lines ++ [hl]) = extractFromLines lines) ∧
      (∀ lines hl hl2 rest, isHeader hl = true → isHeader hl2 = true →
        extractFromLines (lines ++ hl :: hl2 :: rest) =
          extractFromLines (lines ++ hl2 :: rest)) := by
  constructor
  · intro lines hl hhl
    have hhl' : (parseHeader (pyStrip hl)).isSome = true := hhl
    obtain ⟨g, hg⟩ := Option.isSome_iff_exists.mp hhl'
    rw [extractFromLines, extractFromLines, List.foldl_append,
      List.foldl_cons, List.foldl_nil,
      stepLine_header _ hl g hg, saveCurrent_empty_content]
  · intro lines hl hl2 rest hhl hh2
    have hhl' : (parseHeader (pyStrip hl)).isSome = true := hhl
    have hh2' : (parseHeader (pyStrip hl2)).isSome = true := hh2
    obtain ⟨g1, hg1⟩ := Option.isSome_iff_exists.mp hhl'
    obtain ⟨g2, hg2⟩ := Option.isSome_iff_exists.mp hh2'
    rw [extractFromLines, extractFromLines, List.foldl_append,
      List.foldl_append, List.foldl_cons, List.foldl_cons,
      List.foldl_cons,
      stepLine_header _ hl g1 hg1, stepLine_header _ hl2 g2 hg2,
      stepLine_header _ hl2 g2 hg2, saveCurrent_empty_content]

/-- C7: for each of the three save operations, when the persisted rows
have unique ids, saving a record whose id matches an existing row
yields the table in which every row with a different id is unchanged
(in order) and the matching row is replaced by the new record (written
at the end, per the keep-last merge); saving a record whose id is
absent appends it. -/
theorem c7_store_upsert :
    (∀ (existing : List PropertyRow) (r : PropertyRow),
        (existing.map PropertyRow.id).Nodup →
        save_properties (some existing) [r] =
            existing.filter (fun e => !(e.id == r.id)) ++ [r] ∧
          (¬ r.id ∈ existing.map PropertyRow.id →
            save_properties (some existing) [r] = existing ++ [r])) ∧
      (∀ (existing : List PropositionRow) (r : PropositionRow),
        (existing.map PropositionRow.id).Nodup →
        save_propositions (some existing) [r] =
            existing.filter (fun e => !(e.id == r.id)) ++ [r] ∧
          (¬ r.id ∈ existing.map PropositionRow.id →
            save_propositions (some existing) [r] = existing ++ [r])) ∧
      (∀ (existing : List LtlRow) (r : LtlRow),
        (existing.map LtlRow.id).Nodup →
        save_ltl_formulas (some existing) [r] =
            existing.filter (fun e => !(e.id == r.id)) ++ [r] ∧
          (¬ r.id ∈ existing.map LtlRow.id →
            save_ltl_formulas (some existing) [r] = existing ++ [r])) := by
  refine ⟨fun existing r h => ⟨?_, ?_⟩, fun existing r h => ⟨?_, ?_⟩,
    fun existing r h => ⟨?_, ?_⟩⟩
  · exact dedupKeepLastBy_append_single _ existing r h
  · intro hnot
    show dedupKeepLastBy _ (existing ++ [r]) = existing ++ [r]
    rw [dedupKeepLastBy_append_single _ existing r h,
      filter_ne_key_eq_self _ existing r hnot]
  · exact dedupKeepLastBy_append_single _ existing r h
  · intro hnot
    show dedupKeepLastBy _ (existing ++ [r]) = existing ++ [r]
    rw [dedupKeepLastBy_append_single _ existing r h,
      filter_ne_key_eq_self _ existing r hnot]
  · exact dedupKeepLastBy_append_single _ existing r h
  · intro hnot
    show dedupKeepLastBy _ (existing ++ [r]) = existing ++ [r]
    rw [dedupKeepLastBy_append_single _ existing r h,
      filter_ne_key_eq_self _ existing r hnot]

/-- C7 witness: concrete upsert on a two-row properties store (id "a"
replaced, id "b" untouched), a fresh-id append on a propositions store,
and a replacement on an LTL store. -/
theorem c7_store_upsert_witness :
    save_properties
        (some [⟨"a".data, "1".data, "1".data, "old".data, "Safety".data,
            "t1".data⟩,
          ⟨"b".data, "1".data, "2".data, "keep".data, "Liveness".data,
            "t2".data⟩])
        [⟨"a".data, "1".data, "1".data, "new".data, "Safety".data,
          "t3".data⟩] =
      [⟨"b".data, "1".data, "2".data, "keep".data, "Liveness".data,
          "t2".data⟩,
        ⟨"a".data, "1".data, "1".data, "new".data, "Safety".data,
          "t3".data⟩] ∧
      save_propositions
          (some [⟨"p".data, "a".data, "n1".data, "state".data, "d1".data,
              "t1".data, false⟩])
          [⟨"q".data, "a".data, "n2".data, "event".data, "d2".data,
            "t2".data, false⟩] =
        [⟨"p".data, "a".data, "n1".data, "state".data, "d1".data,
            "t1".data, false⟩,
          ⟨"q".data, "a".data, "n2".data, "event".data, "d2".data,
            "t2".data, false⟩] ∧
      save_ltl_formulas
          (some [⟨"f".data, "a".data, "G p".data, "e1".data, "G".data,
              "t1".data, false⟩])
          [⟨"f".data, "a".data, "G q".data, "e2".data, "G".data,
            "t2".data, true⟩] =
        [⟨"f".data, "a".data, "G q".data, "e2".data, "G".data,
          "t2".data, true⟩] := by
  refine ⟨?_, ?_, ?_⟩
  · rw [(c7_store_upsert.1 _ _ (by decide)).1]
    decide
  · rw [(c7_store_upsert.2.1 _ _ (by decide)).2 (by decide)]
    decide
  · rw [(c7_store_upsert.2.2 _ _ (by decide)).1]
    decide

/-- C8: each of the three batch pipeline operations returns the empty
list when the external call fails, and when the response text contains
no bracket-delimited array; when a bracket-delimited array is found and
the JSON parse succeeds, the operation returns one record per parsed
array element. -/
theorem c8_batch_empty_on_failure :
    ∀ (γ : Type) (parseJson : List Char → Option (List γ))
      (mkP : γ → PropertyRow) (mkQ : γ → PropositionRow)
      (mkF : γ → LtlRow),
      (extract_properties_batch parseJson mkP .failure = [] ∧
        (∀ text, extractJsonArray text = none →
          extract_properties_batch parseJson mkP (.success text) = []) ∧
        (∀ text s items, extractJsonArray text = some s →
          parseJson s = some items →
          (extract_properties_batch parseJson mkP
              (.success text)).length = items.length)) ∧
      (extract_propositions_batch parseJson mkQ .failure = [] ∧
        (∀ text, extractJsonArray text = none →
          extract_propositions_batch parseJson mkQ (.success text) = []) ∧
        (∀ text s items, extractJsonArray text = some s →
          parseJson s = some items →
          (extract_propositions_batch parseJson mkQ
              (.success text)).length = items.length)) ∧
      (generate_ltl_batch parseJson mkF .failure = [] ∧
        (∀ text, extractJsonArray text = none →
          generate_ltl_batch parseJson mkF (.success text) = []) ∧
        (∀ text s items, extractJsonArray text = some s →
          parseJson s = some items →
          (generate_ltl_batch parseJson mkF
              (.success text)).length = items.length)) := by
  intro γ parseJson mkP mkQ mkF
  refine ⟨⟨rfl, ?_, ?_⟩, ⟨rfl, ?_, ?_⟩, ⟨rfl, ?_, ?_⟩⟩
  · intro text h
    simp [extract_properties_batch, h]
  · intro text s items h1 h2
    simp [extract_properties_batch, h1, h2]
  · intro text h
    simp [extract_propositions_batch, h]
  · intro text s items h1 h2
    simp [extract_propositions_batch, h1, h2]
  · intro text h
    simp [generate_ltl_batch, h]
  · intro text s items h1 h2
    simp [generate_ltl_batch, h1, h2]

/-- C8 witness: with a concrete parse oracle producing one element, a
response containing "[1]" yields one property record, a response with
no bracket-delimited array yields no proposition records, and a failed
call yields no LTL records. -/
theorem c8_batch_empty_on_failure_witness :
    (extract_properties_batch (fun _ => some [0])
        (fun _ => ⟨"i".data, "r".data, "s".data, "x".data, "T".data,
          "t".data⟩)
        (.success "reply [1] end".data)).length = 1 ∧
      extract_propositions_batch (fun _ => some ([] : List Nat))
          (fun _ => ⟨"i".data, "p".data, "n".data, "k".data, "d".data,
            "t".data, false⟩)
          (.success "no array here".data) = [] ∧
      generate_ltl_batch (fun _ => some ([] : List Nat))
          (fun _ => ⟨"i".data, "p".data, "f".data, "e".data, "o".data,
            "t".data, false⟩) .failure = [] := by
  refine ⟨?_, ?_, ?_⟩
  · exact (c8_batch_empty_on_failure Nat _ _
      (fun _ => ⟨"i".data, "p".data, "n".data, "k".data, "d".data,
        "t".data, false⟩)
      (fun _ => ⟨"i".data, "p".data, "f".data, "e".data, "o".data,
        "t".data, false⟩)).1.2.2
      "reply [1] end".data "[1]".data [0] (by decide) rfl
  · exact (c8_batch_empty_on_failure Nat _
      (fun _ => ⟨"i".data, "r".data, "s".data, "x".data, "T".data,
        "t".data⟩) _
      (fun _ => ⟨"i".data, "p".data, "f".data, "e".data, "o".data,
        "t".data, false⟩)).2.1.2.1
      "no array here".data (by decide)
  · exact (c8_batch_empty_on_failure Nat _
      (fun _ => ⟨"i".data, "r".data, "s".data, "x".data, "T".data,
        "t".data⟩)
      (fun _ => ⟨"i".data, "p".data, "n".data, "k".data, "d".data,
        "t".data, false⟩) _).2.2.1

/-- C9 (counterexample): when the store file does not exist, the new
batch is written without deduplication, so a single save call with two
rows sharing id "a" leaves a table whose id column is not duplicate
free — the claim fails for that call. -/
theorem c9_claim_counterexample :
    ¬ (((save_properties none
          [⟨"a".data, "1".data, "1".data, "x".data, "Safety".data,
              "t1".data⟩,
            ⟨"a".data, "1".data, "1".data, "y".data, "Safety".data,
              "t2".data⟩]).map PropertyRow.id).Nodup) := by
  decide

/-- C9 (amended): every save through the merge path (store file
exists) leaves a table with at most one row per id, duplicates between
the existing rows and the batch and within the batch collapsing to the
last written; when the file does not exist, the batch is written
as-is, so id-uniqueness holds only when the batch's ids are already
unique. -/
theorem c9_amended :
    (∀ (existing props : List PropertyRow),
        ((save_properties (some existing) props).map
          PropertyRow.id).Nodup) ∧
      (∀ (existing props : List PropositionRow),
        ((save_propositions (some existing) props).map
          PropositionRow.id).Nodup) ∧
      (∀ (existing formulas : List LtlRow),
        ((save_ltl_formulas (some existing) formulas).map
          LtlRow.id).Nodup) ∧
      (∀ (props : List PropertyRow), (props.map PropertyRow.id).Nodup →
        ((save_properties none props).map PropertyRow.id).Nodup) := by
  exact ⟨fun existing props => nodup_dedupKeepLastBy _ _,
    fun existing props => nodup_dedupKeepLastBy _ _,
    fun existing formulas => nodup_dedupKeepLastBy _ _,
    fun props h => h⟩

/-- C9 (amended) witness: a merge-path save collapsing an in-batch
duplicate of id "a", and a fresh-file save of a batch with distinct
ids. -/
theorem c9_amended_witness :
    ((save_properties
        (some [⟨"a".data, "1".data, "1".data, "x".data, "Safety".data,
            "t1".data⟩])
        [⟨"a".data, "1".data, "1".data, "y".data, "Safety".data,
            "t2".data⟩,
          ⟨"a".data, "1".data, "1".data, "z".data, "Safety".data,
            "t3".data⟩]).map PropertyRow.id).Nodup ∧
      ((save_properties none
          [⟨"a".data, "1".data, "1".data, "x".data, "Safety".data,
              "t1".data⟩,
            ⟨"b".data, "1".data, "1".data, "y".data, "Safety".data,
              "t2".data⟩]).map PropertyRow.id).Nodup := by
  exact ⟨c9_amended.1 _ _, c9_amended.2.2.2 _ (by decide)⟩

/-- C4 witness: a document with keyword-rich but header-free lines
extracts to the empty list, and prepending header-free lines to a
document leaves its extraction unchanged. -/
theorem c4_no_headers_empty_witness :
    _extract_property_sections
        "The client MUST send.\nIt MUST MUST SHOULD wait.\n".data = [] ∧
      extractFromLines
          (["intro MUST MUST MUST SHOULD line".data, "".data] ++
            ["1. Rules".data, "MUST SHOULD MAY".data]) =
        extractFromLines ["1. Rules".data, "MUST SHOULD MAY".data] := by
  exact ⟨c4_no_headers_empty.1 _ (by decide),
    c4_no_headers_empty.2 _ _ (by decide)⟩

/-- C5 witness: in `"See RFC 8446 now"` the leftmost match of
`RFC\s*(\d+)` starts at index 4 and yields "8446"; `"hello"` has no
match and yields "Unknown". -/
theorem c5_rfc_number_witness :
    (parse "See RFC 8446 now".data).rfc_number = "8446".data ∧
      (parse "hello".data).rfc_number = "Unknown".data := by
  refine ⟨?_, ?_⟩
  · exact (c5_rfc_number "See RFC 8446 now".data).2 4 "8446".data
      (by decide) (by decide)
  · exact (c5_rfc_number "hello".data).1 (by decide)

/-- C6 witness: with line 3 equal to
`"The Transport Layer Security (TLS) Protocol"` as the first qualifying
line among the first 20, that exact line is returned as title; a short
document with no qualifying line yields "Unknown Title". -/
theorem c6_title_first_qualifying_witness :
    (parse
        "RFC 8446\n\nThe Transport Layer Security (TLS) Protocol\n1. Intro\n".data).title =
      "The Transport Layer Security (TLS) Protocol".data ∧
      (parse "RFC 9999 short title\ntiny\n".data).title =
        "Unknown Title".data := by
  refine ⟨?_, ?_⟩
  · exact (c6_title_first_qualifying _).1
      "The Transport Layer Security (TLS) Protocol".data (by decide)
  · exact (c6_title_first_qualifying _).2 (by decide)

/-- C10 witness: a keyword-laden header as the last line contributes no
section, and a keyword-laden header immediately followed by another
header contributes no section. -/
theorem c10_header_without_content_dropped_witness :
    extractFromLines
        (["1. Start".data, "MUST SHOULD MAY".data] ++
          ["2. MUST MUST MUST SHOULD title".data]) =
      extractFromLines ["1. Start".data, "MUST SHOULD MAY".data] ∧
      extractFromLines
          ([] ++ "2. MUST MUST MUST SHOULD title".data ::
            "3. Next".data :: ["MUST SHALL MAY OPTIONAL".data]) =
        extractFromLines
          ([] ++ "3. Next".data :: ["MUST SHALL MAY OPTIONAL".data]) := by
  exact ⟨c10_header_without_content_dropped.1 _ _ (by decide),
    c10_header_without_content_dropped.2 [] _ _ _ (by decide) (by decide)⟩

end RFCApp
